import Mathlib

/-!
Verification of the AirBnB data-handler core (`AirBnBDataHandler.js`).

The embedding models records as association lists from field names to string
values (the shape produced by the CSV parser), JS numbers as rationals
(IEEE-754 rounding and the infinities are outside the model; every numeric
string is given its exact rational value, and NaN is represented by `none`
at coercion time), and the handler state as an explicit structure holding the
working set and the pinned-id list.
-/

namespace AirBnB

/-- A digit character in the decimal range. -/
def isDecDigit (c : Char) : Bool := '0' ≤ c && c ≤ '9'

/-- Numeric value of a decimal digit character. -/
def digitVal (c : Char) : Nat := c.toNat - '0'.toNat

/-- Value of a digit list read in base 10, most significant first. -/
def digitsToNat (cs : List Char) : Nat :=
  cs.foldl (fun n c => n * 10 + digitVal c) 0

/-- A hexadecimal digit character. -/
def isHexDigit (c : Char) : Bool :=
  isDecDigit c || ('a' ≤ c && c ≤ 'f') || ('A' ≤ c && c ≤ 'F')

/-- Numeric value of a hexadecimal digit character. -/
def hexDigitVal (c : Char) : Nat :=
  if isDecDigit c then digitVal c
  else if 'a' ≤ c && c ≤ 'f' then c.toNat - 'a'.toNat + 10
  else c.toNat - 'A'.toNat + 10

/-- Value of a digit list read in base 16, most significant first. -/
def hexDigitsToNat (cs : List Char) : Nat :=
  cs.foldl (fun n c => n * 16 + hexDigitVal c) 0

/-- The whitespace characters stripped by the ECMAScript numeric conversions
(the common ASCII subset; exotic Unicode whitespace is outside the model). -/
def jsWhitespace (c : Char) : Bool :=
  c = ' ' || c = '\t' || c = '\n' || c = '\r' || c = '\x0b' || c = '\x0c'

/-- Splits off the longest prefix of characters satisfying `p`. -/
def spanP (p : Char → Bool) : List Char → List Char × List Char
  | [] => ([], [])
  | c :: cs =>
    if p c then
      let r := spanP p cs
      (c :: r.1, r.2)
    else ([], c :: cs)

/-- Optional sign: returns the sign (`1` or `-1`) and the rest. -/
def takeSign : List Char → Int × List Char
  | '+' :: cs => (1, cs)
  | '-' :: cs => (-1, cs)
  | cs => (1, cs)

/-- The exponent part of a decimal literal: `e`/`E`, optional sign, at least
one digit; consumed only when fully present (ECMAScript longest-valid-prefix
rule: `parseFloat` of the string `1e` is `1`). Returns the exponent value and
the remaining characters. -/
def takeExponent (cs : List Char) : Int × List Char :=
  match cs with
  | c :: rest =>
    if c = 'e' || c = 'E' then
      let (sgn, rest₂) := takeSign rest
      let (ds, rest₃) := spanP isDecDigit rest₂
      if ds.isEmpty then (0, cs) else (sgn * (digitsToNat ds : Int), rest₃)
    else (0, cs)
  | [] => (0, cs)

/-- The unsigned decimal mantissa: digits, an optional point, more digits; at
least one digit overall. Returns its exact rational value, or `none` when no
valid prefix exists. -/
def takeMantissa (cs : List Char) : Option (ℚ × List Char) :=
  let (intPart, rest) := spanP isDecDigit cs
  match rest with
  | '.' :: rest₂ =>
    let (fracPart, rest₃) := spanP isDecDigit rest₂
    if intPart.isEmpty && fracPart.isEmpty then none
    else
      some ((digitsToNat intPart : ℚ)
        + (digitsToNat fracPart : ℚ) / (10 : ℚ) ^ fracPart.length, rest₃)
  | _ =>
    if intPart.isEmpty then none
    else some ((digitsToNat intPart : ℚ), rest)

/-- ECMAScript `parseFloat` on rationals: strip leading whitespace, optional
sign, then the longest prefix that is a decimal literal (digits, optional
fraction, optional exponent). `none` models the NaN result for inputs with no
parsable numeric prefix. The `Infinity` literal and IEEE-754 rounding are
outside this model. -/
def parseFloatQ (s : String) : Option ℚ :=
  let cs := (spanP jsWhitespace s.data).2
  let (sgn, cs₂) := takeSign cs
  match takeMantissa cs₂ with
  | none => none
  | some (m, rest) =>
    let (e, _) := takeExponent rest
    some ((sgn : ℚ) * m * (10 : ℚ) ^ e)

/-- ECMAScript `parseInt` with no radix argument: strip leading whitespace,
optional sign, then either a `0x`/`0X` prefix followed by hexadecimal digits
or decimal digits; the longest such digit prefix is taken; `none` models NaN
(no digits at all). -/
def parseIntJS (s : String) : Option Int :=
  let cs := (spanP jsWhitespace s.data).2
  let (sgn, cs₂) := takeSign cs
  match cs₂ with
  | '0' :: x :: rest =>
    if x = 'x' || x = 'X' then
      let (ds, _) := spanP isHexDigit rest
      if ds.isEmpty then none else some (sgn * (hexDigitsToNat ds : Int))
    else
      let (ds, _) := spanP isDecDigit ('0' :: x :: rest)
      if ds.isEmpty then none else some (sgn * (digitsToNat ds : Int))
  | _ =>
    let (ds, _) := spanP isDecDigit cs₂
    if ds.isEmpty then none else some (sgn * (digitsToNat ds : Int))

/-- A record: an association list from field names to string field values, in
property-insertion order (the shape the CSV parser produces). -/
abbrev Record := List (String × String)

/-- Property access `record.field`: `none` models the JS `undefined` result
for a missing field. -/
def jsGet (r : Record) (k : String) : Option String :=
  match r.find? (fun p => p.1 = k) with
  | some p => some p.2
  | none => none

/-- `parseFloat(listing.f)`: a missing field is the string form of
`undefined`, which has no numeric prefix, hence NaN (`none`). -/
def fieldFloat (r : Record) (k : String) : Option ℚ :=
  match jsGet r k with
  | some s => parseFloatQ s
  | none => none

/-- `parseInt(listing.f)` under the same convention. -/
def fieldInt (r : Record) (k : String) : Option Int :=
  match jsGet r k with
  | some s => parseIntJS s
  | none => none

/-- JS `x || 0` applied to a number-or-NaN: NaN and `0` are falsy and give
`0`, anything else gives itself. -/
def orZeroQ : Option ℚ → ℚ
  | none => 0
  | some q => if q = 0 then 0 else q

/-- JS `x || 0` on an integer-or-NaN result of `parseInt`. -/
def orZeroZ : Option Int → Int
  | none => 0
  | some z => if z = 0 then 0 else z

/-- Filter criteria: each field is independently optional, mirroring the
configuration object built by the UI (`priceRange` a `min,max` pair, `rooms`
and `reviewScore` numeric thresholds). -/
structure Criteria where
  priceRange : Option (ℚ × ℚ)
  rooms : Option ℚ
  reviewScore : Option ℚ

/-- The `priceRange` clause of `filter`: guarded by `if (criteria.priceRange)`
(an array is always truthy, so presence alone enables it); the record's
`price` is coerced with `parseFloat` and NaN fails both bounds comparisons. -/
def pricePass (c : Criteria) (l : Record) : Bool :=
  match c.priceRange with
  | none => true
  | some (mn, mx) =>
    match fieldFloat l "price" with
    | none => false
    | some p => decide (mn ≤ p) && decide (p ≤ mx)

/-- The `rooms` clause of `filter`: guarded by `if (criteria.rooms)`, which is
JS number truthiness, so a present value of `0` disables the clause; the
record's `bedrooms` is `parseInt(...) || 0`. -/
def roomsPass (c : Criteria) (l : Record) : Bool :=
  match c.rooms with
  | none => true
  | some r =>
    if r = 0 then true
    else decide ((orZeroZ (fieldInt l "bedrooms") : ℚ) ≥ r)

/-- The `reviewScore` clause of `filter`: guarded by JS number truthiness;
the record's `review_scores_rating` is `parseFloat(...) || 0`. -/
def reviewPass (c : Criteria) (l : Record) : Bool :=
  match c.reviewScore with
  | none => true
  | some r =>
    if r = 0 then true
    else decide (orZeroQ (fieldFloat l "review_scores_rating") ≥ r)

/-- The predicate of the `filter` method: the conjunction of the three
independently-optional clauses (`valid` accumulates through the three
`if` blocks). -/
def listingPass (c : Criteria) (l : Record) : Bool :=
  pricePass c l && roomsPass c l && reviewPass c l

/-- `filter(criteria)`: replaces the working set with the matching subset. -/
def filterData (c : Criteria) (data : List Record) : List Record :=
  data.filter (listingPass c)

/-- The Stats Snapshot value set by `computeStats`. -/
structure Stats where
  count : Nat
  avgPricePerBedroom : ℚ
deriving DecidableEq

/-- `totalPrice`: `data.reduce((sum, l) => sum + (parseFloat(l.price) || 0), 0)`. -/
def totalPrice (data : List Record) : ℚ :=
  data.foldl (fun sum l => sum + orZeroQ (fieldFloat l "price")) 0

/-- `totalBedrooms`: `data.reduce((sum, l) => sum + (parseInt(l.bedrooms) || 0), 0)`. -/
def totalBedrooms (data : List Record) : Int :=
  data.foldl (fun sum l => sum + orZeroZ (fieldInt l "bedrooms")) 0

/-- `computeStats()`: count of the working set, and total price over total
bedrooms with the zero-denominator guard (`totalBedrooms ? ... : 0`; a JS
number is falsy exactly when it is `0`, NaN being impossible here). -/
def computeStats (data : List Record) : Stats :=
  { count := data.length
    avgPricePerBedroom :=
      if totalBedrooms data = 0 then 0
      else totalPrice data / (totalBedrooms data : ℚ) }

/-- JS truthiness of `listing.id`: a missing field (`undefined`) and the
empty string are falsy, every other string is truthy. -/
def idTruthy (l : Record) : Bool :=
  match jsGet l "id" with
  | none => false
  | some s => !(s = "")

/-- Membership test `pinnedIds.includes(listing.id)` with the definite id
value; only evaluated after `listing.id` passed the truthiness guard. -/
def idPinned (pinnedIds : List String) (l : Record) : Bool :=
  match jsGet l "id" with
  | none => false
  | some s => pinnedIds.contains s

/-- `pinListing(id)`: appends the id to the pinned list only when absent. -/
def pinListing (pinnedIds : List String) (listingId : String) : List String :=
  if pinnedIds.contains listingId then pinnedIds else pinnedIds ++ [listingId]

/-- `getPinnedListings()`: `data.filter(l => l.id && pinnedIds.includes(l.id))`. -/
def getPinnedListings (pinnedIds : List String) (data : List Record) : List Record :=
  data.filter (fun l => idTruthy l && idPinned pinnedIds l)

/-- The `pinnedListings` constant inside `getData`. -/
def pinnedFront (pinnedIds : List String) (data : List Record) : List Record :=
  data.filter (fun l => idTruthy l && idPinned pinnedIds l)

/-- The `nonPinnedListings` constant inside `getData`:
`data.filter(l => !l.id || !pinnedIds.includes(l.id))`. -/
def nonPinnedRest (pinnedIds : List String) (data : List Record) : List Record :=
  data.filter (fun l => !idTruthy l || !idPinned pinnedIds l)

/-- `getData()`: with a non-empty pinned list, the pinned matches followed by
the remaining records; otherwise the working set unchanged. -/
def getData (pinnedIds : List String) (data : List Record) : List Record :=
  if pinnedIds.length > 0 then
    pinnedFront pinnedIds data ++ nonPinnedRest pinnedIds data
  else data

/-- A JS plain object with number values, as used for the ranking
accumulator: an association list in property-creation order with no
duplicate keys. -/
abbrev JsObj := List (String × Nat)

/-- `acc[host] || 0`: property read with the falsy-to-zero fallback (first
matching key wins, `0` when the key is absent). -/
def objGetD : JsObj → String → Nat
  | [], _ => 0
  | (k', v) :: rest, k => if k' = k then v else objGetD rest k

/-- Property write `acc[k] = v`: updates in place when the key exists,
otherwise appends (JS objects keep property-creation order for string
keys). -/
def objSet : JsObj → String → Nat → JsObj
  | [], k, v => [(k, v)]
  | (k', v') :: rest, k, v =>
    if k' = k then (k, v) :: rest else (k', v') :: objSet rest k v

/-- One step of the ranking `reduce`: `acc[host] = (acc[host] || 0) + 1`. -/
def objIncr (o : JsObj) (k : String) : JsObj :=
  objSet o k (objGetD o k + 1)

/-- The property key used for a listing: `listing.host_id`, with a missing
field giving the key string form of `undefined`. -/
def hostKey (l : Record) : String :=
  match jsGet l "host_id" with
  | some s => s
  | none => "undefined"

/-- The ranking accumulator: `data.reduce((acc, l) => ..., {})`. -/
def buildRanking (data : List Record) : JsObj :=
  data.foldl (fun acc l => objIncr acc (hostKey l)) []

/-- Whether a string is an ECMAScript array-index property key: the canonical
decimal form of an integer below 2^32 - 1, i.e. a non-empty all-digit string
with no leading zero (except the string holding the single digit zero) whose
value is below the bound. Such keys are enumerated before all other keys, in
ascending numeric order. -/
def isArrayIndex (s : String) : Bool :=
  match s.data with
  | [] => false
  | c :: cs =>
    (c :: cs).all isDecDigit && (!(c = '0') || cs.isEmpty)
      && digitsToNat (c :: cs) < 4294967295

/-- Numeric value of an array-index key (on non-index keys the value is
unused). -/
def idxVal (s : String) : Nat := digitsToNat s.data

/-- Insertion into a list sorted ascending by array-index value of the key
(index keys of one object are pairwise distinct, so tie order is
immaterial). -/
def insertIdx {α : Type} (x : String × α) : List (String × α) → List (String × α)
  | [] => [x]
  | y :: ys => if idxVal y.1 ≤ idxVal x.1 then y :: insertIdx x ys else x :: y :: ys

/-- Sorts object entries ascending by array-index value of the key. -/
def sortIdx {α : Type} (l : List (String × α)) : List (String × α) :=
  l.foldl (fun acc x => insertIdx x acc) []

/-- `Object.entries(o)` under the ECMAScript own-property enumeration order:
array-index keys first in ascending numeric order, then the remaining string
keys in property-creation order. -/
def jsEntries (o : JsObj) : List (String × Nat) :=
  sortIdx (o.filter (fun p => isArrayIndex p.1))
    ++ o.filter (fun p => !isArrayIndex p.1)

/-- One entry of the Host Ranking. -/
structure HostEntry where
  host : String
  count : Nat
deriving DecidableEq

/-- Stable insertion for a descending sort by `count`: the new element goes
after every element whose count is at least its own. -/
def insertByCount (x : HostEntry) : List HostEntry → List HostEntry
  | [] => [x]
  | y :: ys => if x.count ≤ y.count then y :: insertByCount x ys else x :: y :: ys

/-- `sort((a, b) => b.count - a.count)`: ECMAScript `Array.prototype.sort` is
required to be stable, and a stable descending-by-count sort is extensionally
unique, so this stable insertion sort is the sort the code performs. -/
def sortByCountDesc (l : List HostEntry) : List HostEntry :=
  l.foldl (fun acc x => insertByCount x acc) []

/-- `computeHostRanking()`: group by host key, enumerate the groups in object
property order, shape them into entries and sort by count descending. -/
def computeHostRanking (data : List Record) : List HostEntry :=
  sortByCountDesc ((jsEntries (buildRanking data)).map (fun p => ⟨p.1, p.2⟩))

/-- Whether `quoteField` must wrap the value: it contains the delimiter, a
quote character, or a newline (character membership is taken over the
string's character list). -/
def needsQuote (s : String) : Bool :=
  s.data.contains ',' || s.data.contains '"' || s.data.contains '\n'

/-- `fieldStr.replace(/"/g, dq)` where `dq` is two quote characters. -/
def doubleQuotes (s : String) : String :=
  ⟨s.data.foldr (fun c acc => if c = '"' then '"' :: '"' :: acc else c :: acc) []⟩

/-- The `quoteField` helper of `convertToCSV`: `null`/`undefined` encode as
the empty string; a value containing the delimiter, a quote character or a
newline is wrapped in quotes with embedded quotes doubled. -/
def quoteField : Option String → String
  | none => ""
  | some s =>
    if needsQuote s then "\"" ++ doubleQuotes s ++ "\"" else s

/-- `Object.keys(r)` under the ECMAScript enumeration order (same order as
`jsEntries`). -/
def jsKeys (r : Record) : List String :=
  ((sortIdx (r.filter (fun p => isArrayIndex p.1)))
    ++ r.filter (fun p => !isArrayIndex p.1)).map (fun p => p.1)

/-- `convertToCSV(data)`: empty input encodes to the empty string; otherwise
the headers come from the first record's keys, joined with the delimiter, and
each record becomes one delimiter-joined line of quoted fields; the lines are
joined with newlines. -/
def convertToCSV (data : List Record) : String :=
  match data with
  | [] => ""
  | first :: _ =>
    let headers := jsKeys first
    let headerLine := String.intercalate "," headers
    let rows := data.map (fun row =>
      String.intercalate "," (headers.map (fun h => quoteField (jsGet row h))))
    String.intercalate "\n" (headerLine :: rows)

/-- The mutable state owned by `createHandler`: the current working set and
the pinned-id list. The derived values (stats, ranking) are pure caches and
are modelled by the functions `computeStats` and `computeHostRanking`. -/
structure HandlerState where
  data : List Record
  pinnedIds : List String

/-- `createHandler(listings)`: full dataset as working set, no pins. -/
def createHandler (listings : List Record) : HandlerState :=
  { data := listings, pinnedIds := [] }

/-- The chainable operations that can change the handler state. The readers
(`getData`, `getPinnedListings`) and the derived-value computations never
write the working set or the pinned list. -/
inductive Op where
  | filterOp (c : Criteria)
  | statsOp
  | rankingOp
  | pinOp (id : String)

/-- Effect of one operation on the handler state. -/
def step (s : HandlerState) : Op → HandlerState
  | Op.filterOp c => { s with data := filterData c s.data }
  | Op.statsOp => s
  | Op.rankingOp => s
  | Op.pinOp id => { s with pinnedIds := pinListing s.pinnedIds id }

/-- A chained sequence of operations, applied left to right. -/
def runOps (s : HandlerState) (ops : List Op) : HandlerState :=
  ops.foldl step s

/-- Spec-side predicate, following the claim wording for the export order: a
record "whose identifier is pinned", with no truthiness proviso — the record
has an `id` field whose value is a member of the pinned-id set. -/
def specPinnedMatch (pinnedIds : List String) (l : Record) : Bool :=
  match jsGet l "id" with
  | some s => pinnedIds.contains s
  | none => false

/-- Number of records of the working set whose host key is `k`. -/
def countHost (data : List Record) (k : String) : Nat :=
  (data.filter (fun l => hostKey l = k)).length

/-- Index of the first record of the working set whose host key is `k`. -/
def firstHostOcc (data : List Record) (k : String) : Nat :=
  data.findIdx (fun l => hostKey l = k)

/-- Spec-side property, following the claim wording for host-ranking ties:
entries with equal counts appear in the order in which their host keys are
first encountered in the working set. -/
def RankingFirstEncounterOrder (data : List Record) : Prop :=
  (computeHostRanking data).Pairwise
    (fun a b => a.count = b.count → firstHostOcc data a.host ≤ firstHostOcc data b.host)

/-- Spec-side field encoding, following the spec wording: a missing or null
field encodes as the empty string; a value is wrapped in quote characters,
with every embedded quote character doubled, exactly when it contains the
delimiter, a quote character, or a newline. -/
def specEncodeField (v : Option String) : String :=
  match v with
  | none => ""
  | some s =>
    if s.data.contains ',' || s.data.contains '"' || s.data.contains '\n' then
      "\"" ++ doubleQuotes s ++ "\""
    else s

/-- Spec-side encoding contract, following the spec wording: an empty input
encodes to the empty text; otherwise the column headers are the key set of
the first record joined with the delimiter, and the text is that header line
followed by one delimiter-joined line per record, lines joined with
newlines. -/
def specConvertToCSV (data : List Record) : String :=
  match data with
  | [] => ""
  | first :: _ =>
    String.intercalate "\n"
      (String.intercalate "," (jsKeys first) ::
        data.map (fun row =>
          String.intercalate ","
            ((jsKeys first).map (fun h => specEncodeField (jsGet row h)))))

lemma orZeroQ_eq_getD (o : Option ℚ) : orZeroQ o = o.getD 0 := by
  cases o with
  | none => rfl
  | some q => by_cases h : q = 0 <;> simp [orZeroQ, h]

lemma orZeroZ_eq_getD (o : Option Int) : orZeroZ o = o.getD 0 := by
  cases o with
  | none => rfl
  | some z => by_cases h : z = 0 <;> simp [orZeroZ, h]

lemma foldl_add_eq_sum {α M : Type} [AddCommMonoid M] (f : α → M) :
    ∀ (l : List α) (a : M), l.foldl (fun s x => s + f x) a = a + (l.map f).sum := by
  intro l
  induction l with
  | nil => intro a; simp
  | cons x xs ih => intro a; simp [ih, add_assoc]

lemma totalPrice_eq_sum (data : List Record) :
    totalPrice data = (data.map (fun l => (fieldFloat l "price").getD 0)).sum := by
  have h := foldl_add_eq_sum (fun l => orZeroQ (fieldFloat l "price")) data 0
  simp only [totalPrice, h, zero_add]
  congr 1
  exact List.map_congr_left (fun l _ => orZeroQ_eq_getD _)

lemma totalBedrooms_eq_sum (data : List Record) :
    totalBedrooms data = (data.map (fun l => (fieldInt l "bedrooms").getD 0)).sum := by
  have h := foldl_add_eq_sum (fun l => orZeroZ (fieldInt l "bedrooms")) data 0
  simp only [totalBedrooms, h, zero_add]
  congr 1
  exact List.map_congr_left (fun l _ => orZeroZ_eq_getD _)

/-- C1: for every working set, `computeStats` sets `count` to the size of the
working set and `avgPricePerBedroom` to the sum of coerced prices (non-numeric
as zero) over the sum of coerced bedrooms (non-numeric as zero), with a zero
bedroom sum giving zero; on the empty working set the snapshot is zero count
and zero average. -/
theorem computeStats_matches_spec :
    (∀ data : List Record,
      computeStats data =
        { count := data.length
          avgPricePerBedroom :=
            if ((data.map (fun l => (fieldInt l "bedrooms").getD 0)).sum : Int) = 0 then 0
            else (data.map (fun l => (fieldFloat l "price").getD 0)).sum
              / (((data.map (fun l => (fieldInt l "bedrooms").getD 0)).sum : Int) : ℚ) }) ∧
    computeStats [] = { count := 0, avgPricePerBedroom := 0 } := by
  constructor
  · intro data
    simp only [computeStats, totalPrice_eq_sum, totalBedrooms_eq_sum]
  · rfl

/-- C3 counterexample: with the rooms criterion present at the integer value
zero, the record with `bedrooms` equal to the string minus-one passes the
rooms clause even though its coerced bedroom count, minus one, is not at
least zero — the code guards the clause with JS number truthiness, so a
present zero disables it. -/
theorem rooms_zero_claim_counterexample :
    ¬ (roomsPass ⟨none, some 0, none⟩ [("bedrooms", "-1")] = true ↔
        ((orZeroZ (fieldInt [("bedrooms", "-1")] "bedrooms") : ℚ) ≥ 0)) := by
  decide

/-- C3 amended: for every criteria object whose rooms field is present with a
nonzero integer value r, a record passes the rooms clause exactly when its
`bedrooms` field coerced to an integer (malformed or missing as zero) is at
least r; when the present value is zero the clause imposes no constraint. -/
theorem roomsPass_amended :
    (∀ (pr : Option (ℚ × ℚ)) (rs : Option ℚ) (r : ℤ) (l : Record), (r : ℚ) ≠ 0 →
      (roomsPass ⟨pr, some (r : ℚ), rs⟩ l = true ↔
        (orZeroZ (fieldInt l "bedrooms") : ℚ) ≥ (r : ℚ))) ∧
    (∀ (pr : Option (ℚ × ℚ)) (rs : Option ℚ) (l : Record),
      roomsPass ⟨pr, some 0, rs⟩ l = true) := by
  constructor
  · intro pr rs r l h
    simp [roomsPass, h, ge_iff_le]
  · intro pr rs l
    simp [roomsPass]

/-- C3 witness: the amended equivalence instantiated at the threshold one and
a record with two bedrooms. -/
theorem roomsPass_amended_witness :
    roomsPass ⟨none, some ((1 : ℤ) : ℚ), none⟩ [("bedrooms", "2")] = true ↔
      (orZeroZ (fieldInt [("bedrooms", "2")] "bedrooms") : ℚ) ≥ ((1 : ℤ) : ℚ) :=
  roomsPass_amended.1 none none 1 [("bedrooms", "2")] (by norm_num)

/-- C8: with a price range present, a record whose `price` field is a string
with no parsable numeric prefix coerces to NaN, fails the inclusive bounds
comparison, and is excluded from the filtered working set; in the embedding
`filterData` and `computeStats` are total functions, so malformed numeric
values never abort either operation. -/
theorem malformed_price_excluded (mn mx : ℚ) (ro rs : Option ℚ)
    (l : Record) (data : List Record) (s : String)
    (hs : jsGet l "price" = some s) (hp : parseFloatQ s = none) :
    l ∉ filterData ⟨some (mn, mx), ro, rs⟩ data := by
  intro hmem
  have hpass := (List.mem_filter.mp hmem).2
  simp [listingPass, pricePass, fieldFloat, hs, hp] at hpass

/-- C8 witness: the exclusion instantiated at the range zero to one hundred
and a record whose price is the string abc. -/
theorem malformed_price_excluded_witness :
    [("price", "abc")] ∉ filterData ⟨some (0, 100), none, none⟩ [[("price", "abc")]] :=
  malformed_price_excluded 0 100 none none [("price", "abc")] [[("price", "abc")]]
    "abc" rfl (by decide)

/-- C7: after every chained sequence of operations, the working set is a
subsequence of the originally loaded records in their original relative
order; each filter step leaves the working set no larger than before; and
pinning never changes the working set at all. -/
theorem working_set_invariants :
    (∀ (listings : List Record) (ops : List Op),
        ((runOps (createHandler listings) ops).data).Sublist listings) ∧
    (∀ (s : HandlerState) (c : Criteria),
        (step s (Op.filterOp c)).data.length ≤ s.data.length) ∧
    (∀ (s : HandlerState) (id : String), (step s (Op.pinOp id)).data = s.data) := by
  refine ⟨?_, ?_, ?_⟩
  · have key : ∀ (ops : List Op) (s : HandlerState), ((runOps s ops).data).Sublist s.data := by
      intro ops
      induction ops with
      | nil => intro s; exact List.Sublist.refl _
      | cons op rest ih =>
        intro s
        have h1 : ((runOps (step s op) rest).data).Sublist (step s op).data := ih _
        have h2 : ((step s op).data).Sublist s.data := by
          cases op with
          | filterOp c => exact List.filter_sublist _
          | statsOp => exact List.Sublist.refl _
          | rankingOp => exact List.Sublist.refl _
          | pinOp id => exact List.Sublist.refl _
        exact h1.trans h2
    intro listings ops
    exact key ops (createHandler listings)
  · intro s c
    exact List.length_filter_le _ _
  · intro s id
    rfl

/-- C10: a record whose `id` field is missing or empty fails the JS
truthiness guard, so it is never returned by `getPinnedListings` and always
lands in the non-pinned tail of `getData`, for every pinned-id list —
including lists that contain that very id value. -/
theorem falsy_id_in_tail (pinnedIds : List String) (data : List Record) (l : Record)
    (hid : jsGet l "id" = none ∨ jsGet l "id" = some "") :
    l ∉ getPinnedListings pinnedIds data ∧
    l ∉ pinnedFront pinnedIds data ∧
    (l ∈ data → l ∈ nonPinnedRest pinnedIds data) ∧
    (pinnedIds ≠ [] →
      getData pinnedIds data = pinnedFront pinnedIds data ++ nonPinnedRest pinnedIds data) := by
  have htruthy : idTruthy l = false := by
    rcases hid with h | h <;> simp [idTruthy, h]
  refine ⟨?_, ?_, ?_, ?_⟩
  · intro hmem
    have := (List.mem_filter.mp hmem).2
    simp [htruthy] at this
  · intro hmem
    have := (List.mem_filter.mp hmem).2
    simp [htruthy] at this
  · intro hmem
    exact List.mem_filter.mpr ⟨hmem, by simp [htruthy]⟩
  · intro hne
    simp [getData, List.length_pos.mpr hne]

/-- C10 witness: the empty-string id pinned, a single record with empty id. -/
theorem falsy_id_in_tail_witness :
    [("id", "")] ∉ getPinnedListings [""] [[("id", "")]] ∧
    [("id", "")] ∉ pinnedFront [""] [[("id", "")]] ∧
    ([("id", "")] ∈ ([[("id", "")]] : List Record) →
      [("id", "")] ∈ nonPinnedRest [""] [[("id", "")]]) ∧
    (([""] : List String) ≠ [] →
      getData [""] [[("id", "")]] = pinnedFront [""] [[("id", "")]] ++ nonPinnedRest [""] [[("id", "")]]) :=
  falsy_id_in_tail [""] [[("id", "")]] [("id", "")] (Or.inr rfl)

/-- C2 counterexample: the pinned-id list holding x then the empty string is
reachable by two pin operations; with the working set holding first a record
with empty id and then the record with id x, `getData` returns the x record
first, while the claim as stated (pinned-identifier records first, in
working-set order) demands the empty-id record first, since its identifier
is a member of the pinned-id set. -/
theorem getData_claim_counterexample :
    pinListing (pinListing [] "x") "" = ["x", ""] ∧
    getData ["x", ""] [[("id", "")], [("id", "x")]] ≠
      ((([[("id", "")], [("id", "x")]] : List Record).filter (specPinnedMatch ["x", ""])) ++
        (([[("id", "")], [("id", "x")]] : List Record).filter
          (fun l => !specPinnedMatch ["x", ""] l))) := by
  decide

/-- C2 amended: with a non-empty pinned-id list, `getData` returns the
working-set records whose id field is present, non-empty and pinned, in
working-set order, followed by all the other working-set records in order;
the result is a permutation of the working set, so no record is duplicated
or dropped; with an empty pinned-id list the working set is returned
unchanged; and the claim's concrete example holds: pinned a and b with
working set c, a, d, b by id yields a, b, c, d. -/
theorem getData_amended :
    (∀ (pinnedIds : List String) (data : List Record), pinnedIds ≠ [] →
      getData pinnedIds data = pinnedFront pinnedIds data ++ nonPinnedRest pinnedIds data ∧
      List.Perm (getData pinnedIds data) data) ∧
    (∀ data : List Record, getData [] data = data) ∧
    getData ["a", "b"] [[("id", "c")], [("id", "a")], [("id", "d")], [("id", "b")]] =
      [[("id", "a")], [("id", "b")], [("id", "c")], [("id", "d")]] := by
  refine ⟨?_, fun data => rfl, by decide⟩
  intro pinnedIds data h
  have hlen : pinnedIds.length > 0 := List.length_pos.mpr h
  have hrest : nonPinnedRest pinnedIds data =
      data.filter (fun l => !(idTruthy l && idPinned pinnedIds l)) := by
    apply List.filter_congr
    intro x _
    rw [Bool.not_and]
  refine ⟨by simp [getData, hlen], ?_⟩
  have hperm := List.filter_append_perm (fun l => idTruthy l && idPinned pinnedIds l) data
  simp only [getData, hlen, if_pos]
  rw [hrest]
  exact hperm

/-- C2 witness: the amended statement instantiated at a singleton pinned list
and a singleton working set. -/
theorem getData_amended_witness :
    getData ["a"] [[("id", "a")]] = pinnedFront ["a"] [[("id", "a")]] ++ nonPinnedRest ["a"] [[("id", "a")]] ∧
    List.Perm (getData ["a"] [[("id", "a")]]) [[("id", "a")]] :=
  getData_amended.1 ["a"] [[("id", "a")]] (by decide)

lemma objGetD_objSet (o : JsObj) (k k' : String) (v : Nat) :
    objGetD (objSet o k v) k' = if k = k' then v else objGetD o k' := by
  induction o with
  | nil => simp [objSet, objGetD]
  | cons p rest ih =>
    obtain ⟨k₀, v₀⟩ := p
    by_cases h0 : k₀ = k
    · subst h0
      by_cases h : k₀ = k' <;> simp [objSet, objGetD, h]
    · by_cases h : k₀ = k'
      · subst h
        have hne : ¬ k = k₀ := fun hc => h0 hc.symm
        simp [objSet, objGetD, h0, hne]
      · simp [objSet, objGetD, h0, h, ih]

lemma objGetD_objIncr (o : JsObj) (k k' : String) :
    objGetD (objIncr o k) k' = objGetD o k' + (if k = k' then 1 else 0) := by
  by_cases h : k = k'
  · subst h; simp [objIncr, objGetD_objSet]
  · simp [objIncr, objGetD_objSet, h]

lemma mem_keys_objSet (o : JsObj) (k k' : String) (v : Nat) :
    k' ∈ (objSet o k v).map Prod.fst ↔ k' ∈ o.map Prod.fst ∨ k' = k := by
  induction o with
  | nil => simp [objSet]
  | cons p rest ih =>
    obtain ⟨k₀, v₀⟩ := p
    by_cases h0 : k₀ = k
    · subst h0; simp [objSet]; tauto
    · simp [objSet, h0, ih]; tauto

lemma objSet_keys_nodup (o : JsObj) (k : String) (v : Nat)
    (h : (o.map Prod.fst).Nodup) : ((objSet o k v).map Prod.fst).Nodup := by
  induction o with
  | nil => simp [objSet]
  | cons p rest ih =>
    obtain ⟨k₀, v₀⟩ := p
    simp only [List.map_cons, List.nodup_cons] at h
    by_cases h0 : k₀ = k
    · subst h0; simpa [objSet] using h
    · have hset : objSet ((k₀, v₀) :: rest) k v = (k₀, v₀) :: objSet rest k v := by
        simp [objSet, h0]
      rw [hset]
      simp only [List.map_cons, List.nodup_cons]
      refine ⟨?_, ih h.2⟩
      rw [mem_keys_objSet]
      rintro (hc | hc)
      · exact h.1 hc
      · exact h0 hc

lemma mem_objGetD (o : JsObj) (k : String) (v : Nat)
    (hnd : (o.map Prod.fst).Nodup) (hm : (k, v) ∈ o) : objGetD o k = v := by
  induction o with
  | nil => simp at hm
  | cons p rest ih =>
    obtain ⟨k₀, v₀⟩ := p
    simp only [List.map_cons, List.nodup_cons] at hnd
    rcases List.mem_cons.mp hm with h | h
    · injection h with h1 h2
      subst h1
      subst h2
      simp [objGetD]
    · have hk : ¬ k₀ = k := by
        intro hc
        subst hc
        exact hnd.1 (List.mem_map.mpr ⟨(k₀, v), h, rfl⟩)
      simp [objGetD, hk, ih hnd.2 h]

lemma buildRanking_foldl_getD (data : List Record) :
    ∀ (acc : JsObj) (k : String),
      objGetD (data.foldl (fun a l => objIncr a (hostKey l)) acc) k
        = objGetD acc k + countHost data k := by
  induction data with
  | nil => intro acc k; simp [countHost]
  | cons l rest ih =>
    intro acc k
    simp only [List.foldl_cons, ih, objGetD_objIncr, countHost, List.filter_cons]
    by_cases h : hostKey l = k
    · simp [h, countHost]
      omega
    · have h' : ¬ (hostKey l = k) := h
      simp [h', countHost]

lemma buildRanking_getD (data : List Record) (k : String) :
    objGetD (buildRanking data) k = countHost data k := by
  simpa [objGetD] using buildRanking_foldl_getD data [] k

lemma mem_keys_buildRanking_foldl (data : List Record) :
    ∀ (acc : JsObj) (k : String),
      (k ∈ (data.foldl (fun a l => objIncr a (hostKey l)) acc).map Prod.fst
        ↔ k ∈ acc.map Prod.fst ∨ ∃ l ∈ data, hostKey l = k) := by
  induction data with
  | nil => intro acc k; simp
  | cons l rest ih =>
    intro acc k
    have hmem : k ∈ (objIncr acc (hostKey l)).map Prod.fst
        ↔ k ∈ acc.map Prod.fst ∨ k = hostKey l :=
      mem_keys_objSet acc (hostKey l) k _
    rw [List.foldl_cons, ih, hmem]
    constructor
    · rintro ((h | h) | h)
      · exact Or.inl h
      · exact Or.inr ⟨l, List.mem_cons_self _ _, h.symm⟩
      · obtain ⟨l', hl', hk⟩ := h
        exact Or.inr ⟨l', List.mem_cons_of_mem _ hl', hk⟩
    · rintro (h | ⟨l', hl', hk⟩)
      · exact Or.inl (Or.inl h)
      · rcases List.mem_cons.mp hl' with h' | h'
        · subst h'; exact Or.inl (Or.inr hk.symm)
        · exact Or.inr ⟨l', h', hk⟩

lemma mem_keys_buildRanking (data : List Record) (k : String) :
    k ∈ (buildRanking data).map Prod.fst ↔ ∃ l ∈ data, hostKey l = k := by
  simpa [buildRanking] using mem_keys_buildRanking_foldl data [] k

lemma buildRanking_keys_nodup (data : List Record) :
    ((buildRanking data).map Prod.fst).Nodup := by
  have key : ∀ (acc : JsObj), (acc.map Prod.fst).Nodup →
      ((data.foldl (fun a l => objIncr a (hostKey l)) acc).map Prod.fst).Nodup := by
    induction data with
    | nil => intro acc h; simpa using h
    | cons l rest ih =>
      intro acc h
      exact ih _ (objSet_keys_nodup _ _ _ h)
  simpa [buildRanking] using key [] (by simp)

lemma sumVals_objIncr (o : JsObj) (k : String) :
    ((objIncr o k).map Prod.snd).sum = (o.map Prod.snd).sum + 1 := by
  induction o with
  | nil => simp [objIncr, objSet, objGetD]
  | cons p rest ih =>
    obtain ⟨k₀, v₀⟩ := p
    by_cases h0 : k₀ = k
    · subst h0; simp [objIncr, objSet, objGetD]; omega
    · have hstep : objIncr ((k₀, v₀) :: rest) k = (k₀, v₀) :: objIncr rest k := by
        simp [objIncr, objSet, objGetD, h0]
      rw [hstep]
      simp [ih]
      omega

lemma sumVals_buildRanking (data : List Record) :
    ((buildRanking data).map Prod.snd).sum = data.length := by
  have key : ∀ (acc : JsObj),
      ((data.foldl (fun a l => objIncr a (hostKey l)) acc).map Prod.snd).sum
        = (acc.map Prod.snd).sum + data.length := by
    induction data with
    | nil => intro acc; simp
    | cons l rest ih =>
      intro acc
      simp only [List.foldl_cons, ih, sumVals_objIncr, List.length_cons]
      omega
  simpa [buildRanking] using key []

lemma insertIdx_perm {α : Type} (x : String × α) (l : List (String × α)) :
    List.Perm (insertIdx x l) (x :: l) := by
  induction l with
  | nil => exact List.Perm.refl _
  | cons y ys ih =>
    by_cases h : idxVal y.1 ≤ idxVal x.1
    · simp only [insertIdx, h, if_true]
      exact (List.Perm.cons y ih).trans (List.Perm.swap x y ys)
    · simp only [insertIdx, h, if_false]
      exact List.Perm.refl _

lemma sortIdx_foldl_perm {α : Type} (l : List (String × α)) :
    ∀ acc : List (String × α),
      List.Perm (l.foldl (fun a x => insertIdx x a) acc) (l ++ acc) := by
  induction l with
  | nil => intro acc; simp
  | cons x xs ih =>
    intro acc
    have h1 := ih (insertIdx x acc)
    have h2 : List.Perm (xs ++ insertIdx x acc) (xs ++ (x :: acc)) :=
      List.Perm.append_left xs (insertIdx_perm x acc)
    have h3 : List.Perm (xs ++ (x :: acc)) (x :: (xs ++ acc)) := List.perm_middle
    exact h1.trans (h2.trans h3)

lemma sortIdx_perm {α : Type} (l : List (String × α)) : List.Perm (sortIdx l) l := by
  simpa using sortIdx_foldl_perm l []

lemma jsEntries_perm (o : JsObj) : List.Perm (jsEntries o) o := by
  have h1 := sortIdx_perm (o.filter (fun p => isArrayIndex p.1))
  have h2 := List.filter_append_perm (fun p => isArrayIndex p.1) o
  exact (List.Perm.append h1 (List.Perm.refl _)).trans h2

lemma insertByCount_perm (x : HostEntry) (l : List HostEntry) :
    List.Perm (insertByCount x l) (x :: l) := by
  induction l with
  | nil => exact List.Perm.refl _
  | cons y ys ih =>
    by_cases h : x.count ≤ y.count
    · simp only [insertByCount, h, if_true]
      exact (List.Perm.cons y ih).trans (List.Perm.swap x y ys)
    · simp only [insertByCount, h, if_false]
      exact List.Perm.refl _

lemma sortByCountDesc_foldl_perm (l : List HostEntry) :
    ∀ acc : List HostEntry,
      List.Perm (l.foldl (fun a x => insertByCount x a) acc) (l ++ acc) := by
  induction l with
  | nil => intro acc; simp
  | cons x xs ih =>
    intro acc
    have h1 := ih (insertByCount x acc)
    have h2 : List.Perm (xs ++ insertByCount x acc) (xs ++ (x :: acc)) :=
      List.Perm.append_left xs (insertByCount_perm x acc)
    have h3 : List.Perm (xs ++ (x :: acc)) (x :: (xs ++ acc)) := List.perm_middle
    exact h1.trans (h2.trans h3)

lemma sortByCountDesc_perm (l : List HostEntry) :
    List.Perm (sortByCountDesc l) l := by
  simpa [sortByCountDesc] using sortByCountDesc_foldl_perm l []

lemma insertByCount_sorted (x : HostEntry) (l : List HostEntry)
    (h : l.Pairwise (fun a b => b.count ≤ a.count)) :
    (insertByCount x l).Pairwise (fun a b => b.count ≤ a.count) := by
  induction l with
  | nil => simp [insertByCount]
  | cons y ys ih =>
    rw [List.pairwise_cons] at h
    by_cases hk : x.count ≤ y.count
    · simp only [insertByCount, hk, if_true]
      rw [List.pairwise_cons]
      refine ⟨?_, ih h.2⟩
      intro z hz
      rcases List.mem_cons.mp ((insertByCount_perm x ys).mem_iff.mp hz) with hz' | hz'
      · subst hz'; exact hk
      · exact h.1 z hz'
    · simp only [insertByCount, hk, if_false]
      rw [List.pairwise_cons]
      push_neg at hk
      refine ⟨?_, List.pairwise_cons.mpr h⟩
      intro z hz
      rcases List.mem_cons.mp hz with hz' | hz'
      · subst hz'; exact le_of_lt hk
      · exact le_trans (h.1 z hz') (le_of_lt hk)

lemma sortByCountDesc_foldl_sorted (l : List HostEntry) :
    ∀ acc : List HostEntry, acc.Pairwise (fun a b => b.count ≤ a.count) →
      (l.foldl (fun a x => insertByCount x a) acc).Pairwise (fun a b => b.count ≤ a.count) := by
  induction l with
  | nil => intro acc h; exact h
  | cons x xs ih =>
    intro acc h
    exact ih _ (insertByCount_sorted x acc h)

lemma sortByCountDesc_sorted (l : List HostEntry) :
    (sortByCountDesc l).Pairwise (fun a b => b.count ≤ a.count) := by
  exact sortByCountDesc_foldl_sorted l [] (List.Pairwise.nil)

lemma insertByCount_filter (c : Nat) (x : HostEntry) (acc : List HostEntry)
    (hacc : acc.Pairwise (fun a b => b.count ≤ a.count)) :
    (insertByCount x acc).filter (fun e => e.count = c) =
      if x.count = c then acc.filter (fun e => e.count = c) ++ [x]
      else acc.filter (fun e => e.count = c) := by
  induction acc with
  | nil =>
    by_cases h : x.count = c <;> simp [insertByCount, h]
  | cons y ys ih =>
    rw [List.pairwise_cons] at hacc
    by_cases hk : x.count ≤ y.count
    · simp only [insertByCount, hk, if_true]
      rw [List.filter_cons, List.filter_cons, ih hacc.2]
      by_cases hy : y.count = c <;> by_cases h : x.count = c <;> simp [hy, h]
    · push_neg at hk
      simp only [insertByCount, not_le.mpr hk, if_false]
      by_cases h : x.count = c
      · have hnil : (y :: ys).filter (fun e => e.count = c) = [] := by
          rw [List.filter_eq_nil_iff]
          intro z hz
          have hzle : z.count ≤ y.count := by
            rcases List.mem_cons.mp hz with h' | h'
            · subst h'; exact le_refl _
            · exact hacc.1 z h'
          have : z.count < c := lt_of_le_of_lt hzle (h ▸ hk)
          simp [Nat.ne_of_lt this]
        rw [List.filter_cons_of_pos (by simp [h]), hnil]
        simp [h, hnil]
      · rw [List.filter_cons_of_neg (by simp [h])]
        simp [h]

lemma sortByCountDesc_foldl_filter (c : Nat) (l : List HostEntry) :
    ∀ acc : List HostEntry, acc.Pairwise (fun a b => b.count ≤ a.count) →
      (l.foldl (fun a x => insertByCount x a) acc).filter (fun e => e.count = c) =
        acc.filter (fun e => e.count = c) ++ l.filter (fun e => e.count = c) := by
  induction l with
  | nil => intro acc h; simp
  | cons x xs ih =>
    intro acc h
    rw [List.foldl_cons, ih _ (insertByCount_sorted x acc h),
      insertByCount_filter c x acc h, List.filter_cons]
    by_cases hx : x.count = c
    · simp [hx]
    · simp [hx]

lemma sortByCountDesc_filter (c : Nat) (l : List HostEntry) :
    (sortByCountDesc l).filter (fun e => e.count = c) = l.filter (fun e => e.count = c) := by
  simpa [sortByCountDesc] using sortByCountDesc_foldl_filter c l [] List.Pairwise.nil

lemma mem_ranking_iff (data : List Record) (e : HostEntry) :
    e ∈ computeHostRanking data ↔ (e.host, e.count) ∈ buildRanking data := by
  unfold computeHostRanking
  rw [(sortByCountDesc_perm _).mem_iff]
  constructor
  · intro h
    obtain ⟨p, hp, hpe⟩ := List.mem_map.mp h
    subst hpe
    simpa using (jsEntries_perm _).mem_iff.mp hp
  · intro h
    exact List.mem_map.mpr ⟨(e.host, e.count), (jsEntries_perm _).mem_iff.mpr h, rfl⟩

lemma ranking_entry_count (data : List Record) (e : HostEntry)
    (he : e ∈ computeHostRanking data) : e.count = countHost data e.host := by
  have hp := (mem_ranking_iff data e).mp he
  have h := mem_objGetD (buildRanking data) e.host e.count (buildRanking_keys_nodup data) hp
  rw [buildRanking_getD] at h
  exact h.symm

lemma countHost_pos (data : List Record) (k : String)
    (h : ∃ l ∈ data, hostKey l = k) : 1 ≤ countHost data k := by
  obtain ⟨l, hl, hk⟩ := h
  have : l ∈ data.filter (fun l => hostKey l = k) :=
    List.mem_filter.mpr ⟨hl, by simp [hk]⟩
  have hne : data.filter (fun l => hostKey l = k) ≠ [] := List.ne_nil_of_mem this
  exact Nat.one_le_iff_ne_zero.mpr (fun hz => hne (List.length_eq_zero.mp hz))

lemma countHost_le_one (data : List Record)
    (hall : ∀ l ∈ data, ∃ s, jsGet l "host_id" = some s)
    (hnd : (data.map (fun l => jsGet l "host_id")).Nodup) (k : String) :
    countHost data k ≤ 1 := by
  induction data with
  | nil => simp [countHost]
  | cons l rest ih =>
    simp only [List.map_cons, List.nodup_cons] at hnd
    by_cases hk : hostKey l = k
    · have hrest : rest.filter (fun l => hostKey l = k) = [] := by
        rw [List.filter_eq_nil_iff]
        intro l' hl'
        simp only [decide_eq_true_eq]
        intro hk'
        obtain ⟨s, hs⟩ := hall l (List.mem_cons_self _ _)
        obtain ⟨s', hs'⟩ := hall l' (List.mem_cons_of_mem _ hl')
        have h1 : s = k := by simpa [hostKey, hs] using hk
        have h2 : s' = k := by simpa [hostKey, hs'] using hk'
        exact hnd.1 (List.mem_map.mpr ⟨l', hl', by rw [hs', hs, h1, h2]⟩)
      simp [countHost, List.filter_cons, hk, hrest]
    · have := ih (fun l' hl' => hall l' (List.mem_cons_of_mem _ hl')) hnd.2
      simpa [countHost, List.filter_cons, hk] using this

/-- C6: for every working set the host-ranking entry counts sum to the
working-set size; the entries are sorted by count descending; and when every
record has a `host_id` field and all the values are pairwise distinct, every
entry has count one. -/
theorem hostRanking_counts :
    (∀ data : List Record,
      ((computeHostRanking data).map (fun e => e.count)).sum = data.length) ∧
    (∀ data : List Record,
      (computeHostRanking data).Pairwise (fun a b => b.count ≤ a.count)) ∧
    (∀ data : List Record,
      (∀ l ∈ data, ∃ s, jsGet l "host_id" = some s) →
      (data.map (fun l => jsGet l "host_id")).Nodup →
      ∀ e ∈ computeHostRanking data, e.count = 1) := by
  refine ⟨?_, ?_, ?_⟩
  · intro data
    have h1 : List.Perm ((computeHostRanking data).map (fun e => e.count))
        (((jsEntries (buildRanking data)).map (fun p => HostEntry.mk p.1 p.2)).map
          (fun e => e.count)) :=
      (sortByCountDesc_perm _).map _
    have h2 : (((jsEntries (buildRanking data)).map (fun p => HostEntry.mk p.1 p.2)).map
        (fun e => e.count)) = (jsEntries (buildRanking data)).map Prod.snd := by
      rw [List.map_map]; rfl
    have h3 : List.Perm ((jsEntries (buildRanking data)).map Prod.snd)
        ((buildRanking data).map Prod.snd) :=
      (jsEntries_perm _).map _
    rw [h1.sum_eq, h2, h3.sum_eq, sumVals_buildRanking]
  · intro data
    exact sortByCountDesc_sorted _
  · intro data hall hnd e he
    have hc := ranking_entry_count data e he
    have hmemk : e.host ∈ (buildRanking data).map Prod.fst :=
      List.mem_map.mpr ⟨(e.host, e.count), (mem_ranking_iff data e).mp he, rfl⟩
    have hex := (mem_keys_buildRanking data e.host).mp hmemk
    have h1 := countHost_pos data e.host hex
    have h2 := countHost_le_one data hall hnd e.host
    omega

/-- C6 witness: the distinct-hosts clause instantiated at a one-record
working set. -/
theorem hostRanking_counts_witness :
    (⟨"a", 1⟩ : HostEntry).count = 1 :=
  hostRanking_counts.2.2 [[("host_id", "a")]]
    (by
      intro l hl
      rw [List.mem_singleton] at hl
      subst hl
      exact ⟨"a", rfl⟩)
    (by simp)
    ⟨"a", 1⟩ (by decide)

/-- C4 counterexample: with the working set holding a host-id-five record and
then a host-id-three record, both entries have count one, yet the ranking
lists host three before host five — `Object.entries` enumerates integer-like
keys in ascending numeric order, not in first-encountered order — so the
ranking is not stable relative to first-encountered order. -/
theorem hostRanking_first_encounter_counterexample :
    ¬ RankingFirstEncounterOrder [[("host_id", "5")], [("host_id", "3")]] := by
  unfold RankingFirstEncounterOrder firstHostOcc
  decide

/-- C4 amended: entries with equal counts appear in the ECMAScript own-
property enumeration order of their host keys (integer-like keys ascending
numerically first, then the remaining keys in first-encountered order), and
the ranking is a deterministic function of the working set. -/
theorem hostRanking_tie_enumeration_order (data : List Record) (c : Nat) :
    (computeHostRanking data).filter (fun e => e.count = c) =
      ((jsEntries (buildRanking data)).map (fun p => HostEntry.mk p.1 p.2)).filter
        (fun e => e.count = c) := by
  unfold computeHostRanking
  exact sortByCountDesc_filter c _

/-- C9: when some records lack a `host_id` field and no record carries the
literal string value undefined, the host ranking holds exactly one entry
with host key the literal string undefined, and its count is the number of
records lacking the field — the records are neither omitted nor spread over
one entry each. -/
theorem missing_host_grouped_undefined (data : List Record)
    (hmiss : ∃ l ∈ data, jsGet l "host_id" = none)
    (hnolit : ∀ l ∈ data, jsGet l "host_id" ≠ some "undefined") :
    ∃ e ∈ computeHostRanking data, e.host = "undefined" ∧
      e.count = (data.filter (fun l => jsGet l "host_id" = none)).length ∧
      ∀ e' ∈ computeHostRanking data, e'.host = "undefined" → e' = e := by
  have hc : countHost data "undefined"
      = (data.filter (fun l => jsGet l "host_id" = none)).length := by
    unfold countHost
    congr 1
    apply List.filter_congr
    intro l hl
    cases hjs : jsGet l "host_id" with
    | none => simp [hostKey, hjs]
    | some s =>
      have : s ≠ "undefined" := fun hs => hnolit l hl (hs ▸ hjs)
      simp [hostKey, hjs, this]
  obtain ⟨l₀, hl₀, hjs₀⟩ := hmiss
  have hkey : ∃ l ∈ data, hostKey l = "undefined" :=
    ⟨l₀, hl₀, by simp [hostKey, hjs₀]⟩
  have hmemk : "undefined" ∈ (buildRanking data).map Prod.fst :=
    (mem_keys_buildRanking data "undefined").mpr hkey
  obtain ⟨p, hp, hp1⟩ := List.mem_map.mp hmemk
  have hpv : p.2 = countHost data "undefined" := by
    have := mem_objGetD (buildRanking data) p.1 p.2 (buildRanking_keys_nodup data)
      (by rw [show (p.1, p.2) = p from rfl]; exact hp)
    rw [buildRanking_getD, hp1] at this
    exact this.symm
  refine ⟨⟨"undefined", countHost data "undefined"⟩, ?_, rfl, hc, ?_⟩
  · rw [mem_ranking_iff]
    have hpe : ("undefined", countHost data "undefined") = p :=
      Prod.ext hp1.symm hpv.symm
    rw [hpe]
    exact hp
  · intro e' he' hhost
    have := ranking_entry_count data e' he'
    cases e' with
    | mk h c =>
      simp only at hhost
      subst hhost
      simp only at this
      rw [this]

/-- C9 witness: a one-record working set whose record lacks `host_id`. -/
theorem missing_host_grouped_undefined_witness :
    ∃ e ∈ computeHostRanking [[("x", "1")]], e.host = "undefined" ∧
      e.count = (([[("x", "1")]] : List Record).filter
        (fun l => jsGet l "host_id" = none)).length ∧
      ∀ e' ∈ computeHostRanking [[("x", "1")]], e'.host = "undefined" → e' = e :=
  missing_host_grouped_undefined [[("x", "1")]]
    ⟨[("x", "1")], List.mem_singleton.mpr rfl, rfl⟩
    (by
      intro l hl
      rw [List.mem_singleton] at hl
      subst hl
      decide)

/-- C5: the exported delimited-text encoding sends the empty sequence to the
empty text and otherwise agrees with the spec-side contract (headers from the
first record's key set, one delimiter-joined line per record, lines joined
with newlines); a field value is wrapped in quote characters with embedded
quotes doubled exactly when it contains the delimiter, a quote character, or
a newline, and a missing or null field encodes as the empty string. -/
theorem convertToCSV_matches_spec :
    convertToCSV [] = "" ∧
    (∀ data : List Record, convertToCSV data = specConvertToCSV data) ∧
    (∀ s : String, needsQuote s = true ↔ (',' ∈ s.data ∨ '"' ∈ s.data ∨ '\n' ∈ s.data)) ∧
    (∀ s : String, quoteField (some s) =
      if needsQuote s then "\"" ++ doubleQuotes s ++ "\"" else s) ∧
    quoteField none = "" := by
  refine ⟨rfl, fun data => ?_, fun s => ?_, fun s => rfl, rfl⟩
  · cases data <;> rfl
  · simp [needsQuote]
    tauto

end AirBnB
